import Mathlib

/-!
Shallow embedding of the comparison/merge engine of the CompareExcel
repository.

The comparator is `runLocalComparison` (ComparisonView, local comparison
path): it groups each sheet's rows by the raw value found at the key
column using a JavaScript `Map` (SameValueZero key equality, insertion
order preserved), walks the set-union of the two key lists, and pairs
rows positionally inside each duplicate-key group, comparing matched
rows column-by-column over the set-union of the two sheets' first-row
column lists with `String(v ?? "")` coercion.

The merger is `runMerge` (MergeView): it builds a last-write-wins
lookup from the right sheet's key value to the right row (skipping
null/undefined keys) and maps over the left sheet's rows, copying the
selected columns onto each matched left row, renaming to
`<col>_(Merged)` when the column already exists on the row.
-/

/-- A JavaScript scalar cell value as it appears in an `ExcelRow`
(`Record<string, any>` populated from sheet data): string, number,
boolean, `null`, or `undefined` (the value of an absent property read). -/
inductive Value where
  | str : String → Value
  | num : Int → Value
  | bool : Bool → Value
  | null : Value
  | undef : Value
deriving DecidableEq, Repr

/-- An `ExcelRow`: a JavaScript object, i.e. an insertion-ordered list of
(property name, value) pairs with unique names; lookups use the first
matching name. -/
abbrev Row : Type := List (String × Value)

/-- `row[col]` in JavaScript: the stored value, or `undefined` when the
property is absent. -/
def rowGet : Row → String → Value
  | [], _ => .undef
  | (c', v) :: rest, c => if c' = c then v else rowGet rest c

/-- `col in row` in JavaScript: whether the property is present. -/
def rowHas : Row → String → Bool
  | [], _ => false
  | (c', _) :: rest, c => if c' = c then true else rowHas rest c

/-- `row[col] = v` in JavaScript: overwrite in place when the property
exists, otherwise append it at the end. -/
def setCol : Row → String → Value → Row
  | [], c, v => [(c, v)]
  | (c', v') :: rest, c, v =>
      if c' = c then (c, v) :: rest else (c', v') :: setCol rest c v

/-- `String(x ?? "")`: null/undefined collapse to the empty string, other
values use their JavaScript string form. -/
def coerceStr : Value → String
  | .str s => s
  | .num n => toString n
  | .bool b => if b then "true" else "false"
  | .null => ""
  | .undef => ""

/-- `Object.keys(row)`: the row's property names in insertion order. -/
def rowColumns (r : Row) : List String := r.map Prod.fst

/-- `data.length > 0 ? Object.keys(data[0]) : []` — the column list a
sheet exposes (`sheet1Columns` / `sheet2Columns` memos): the property
names of the FIRST row only. -/
def sheetColumns : List Row → List String
  | [] => []
  | r :: _ => rowColumns r

/-- One insertion into the grouping `Map`: append the row to the
existing group for this key, or add a fresh singleton group at the end
(JavaScript `Map` keeps insertion order, SameValueZero key equality). -/
def insertGroup : List (Value × List Row) → Value → Row → List (Value × List Row)
  | [], k, r => [(k, [r])]
  | (k', g) :: rest, k, r =>
      if k' = k then (k', g ++ [r]) :: rest
      else (k', g) :: insertGroup rest k r

/-- `groupRowsByKey` of the comparator: a `Map<any, ExcelRow[]>` built by
pushing each row onto the group of its raw key value `row[keyColumn]`. -/
def groupRowsByKey (data : List Row) (keyColumn : String) : List (Value × List Row) :=
  data.foldl (fun m row => insertGroup m (rowGet row keyColumn) row) []

/-- `map.get(key) || []` on the grouping map. -/
def lookupGroup : List (Value × List Row) → Value → List Row
  | [], _ => []
  | (k', g) :: rest, k => if k' = k then g else lookupGroup rest k

/-- `new Set([...xs])` materialised back to a list (`Array.from`):
first occurrence kept, insertion order preserved. -/
def jsSetOfList {α : Type} [DecidableEq α] (l : List α) : List α :=
  l.foldl (fun acc x => if x ∈ acc then acc else acc ++ [x]) []

/-- The four `ComparisonStatus` literals. -/
inductive ComparisonStatus where
  | unchanged
  | changed
  | inSheet2Only
  | inSheet1Only
deriving DecidableEq, Repr

/-- One element of `ComparisonResult.comparison`: status, the raw key,
and the (possibly null) row from each sheet. -/
structure ComparisonEntry where
  status : ComparisonStatus
  key : Value
  data1 : Option Row
  data2 : Option Row
deriving DecidableEq, Repr

/-- The matched-pair change test of the comparator's inner loop:
`String(row1[col] ?? "") !== String(row2[col] ?? "")` for some column. -/
def isChangedRow (cols : List String) (r1 r2 : Row) : Bool :=
  cols.any (fun c => coerceStr (rowGet r1 c) != coerceStr (rowGet r2 c))

/-- The comparator's `for (let i = 0; i < maxRows; i++)` loop for one
key: pair `rows1[i] || null` with `rows2[i] || null`, pushing a
`Changed`/`Unchanged` entry for a pair, and a one-sided entry otherwise. -/
def entriesForKey (cols : List String) (k : Value) :
    List Row → List Row → List ComparisonEntry
  | r1 :: t1, r2 :: t2 =>
      { status := if isChangedRow cols r1 r2 then .changed else .unchanged,
        key := k, data1 := some r1, data2 := some r2 } :: entriesForKey cols k t1 t2
  | r1 :: t1, [] =>
      { status := .inSheet1Only, key := k, data1 := some r1, data2 := none }
        :: entriesForKey cols k t1 []
  | [], l2 =>
      l2.map (fun r2 =>
        { status := .inSheet2Only, key := k, data1 := none, data2 := some r2 })

/-- The comparator's result shape. -/
structure ComparisonResult where
  comparison : List ComparisonEntry
  allColumns : List String
deriving Repr

/-- `runLocalComparison(data1, data2, key1, key2)`: group both sheets by
their key column, take `allKeys` as the set-union of the two maps' key
lists and `allColumns` as the set-union of the two sheets' first-row
column lists, and emit the per-key positional entries in key order. -/
def runLocalComparison (data1 data2 : List Row) (key1 key2 : String) :
    ComparisonResult :=
  let map1 := groupRowsByKey data1 key1
  let map2 := groupRowsByKey data2 key2
  let allKeys := jsSetOfList (map1.map Prod.fst ++ map2.map Prod.fst)
  let allColumns := jsSetOfList (sheetColumns data1 ++ sheetColumns data2)
  { comparison :=
      (allKeys.map (fun k =>
        entriesForKey allColumns k (lookupGroup map1 k) (lookupGroup map2 k))).flatten,
    allColumns := allColumns }

/-- `Map.set(key, row)`: overwrite in place or append. -/
def mapSet : List (Value × Row) → Value → Row → List (Value × Row)
  | [], k, r => [(k, r)]
  | (k', r') :: rest, k, r =>
      if k' = k then (k, r) :: rest else (k', r') :: mapSet rest k r

/-- `Map.get(key)` on the right-row lookup. -/
def mapGet : List (Value × Row) → Value → Option Row
  | [], _ => none
  | (k', r') :: rest, k => if k' = k then some r' else mapGet rest k

/-- `rightDataMap` of `runMerge`: insert every right row under its raw
key value, skipping rows whose key is `null` or `undefined`;
`Map.set` makes later occurrences of a key overwrite earlier ones. -/
def buildRightDataMap (rightData : List Row) (rightKeyColumn : String) :
    List (Value × Row) :=
  rightData.foldl (fun m row =>
    if rowGet row rightKeyColumn ≠ .null ∧ rowGet row rightKeyColumn ≠ .undef
    then mapSet m (rowGet row rightKeyColumn) row else m) []

/-- One `columnsToMerge.forEach` step of `runMerge`: copy the right
row's value under `col` when the left row lacks it, otherwise under the
renamed property `` col ++ "_(Merged)" ``. -/
def mergeStep (rightRow : Row) (newRow : Row) (col : String) : Row :=
  if rowHas newRow col = false then setCol newRow col (rowGet rightRow col)
  else setCol newRow (col ++ "_(Merged)") (rowGet rightRow col)

/-- The merged form of one matched left row (`{...leftRow}` then the
`columnsToMerge.forEach` loop). -/
def mergeRow (columnsToMerge : List String) (rightRow leftRow : Row) : Row :=
  columnsToMerge.foldl (mergeStep rightRow) leftRow

/-- `runMerge` over the two sheets' data: map each left row to its
merged form when its key value hits the right lookup, else keep the
copied left row unchanged (left outer join). -/
def runMerge (leftData rightData : List Row)
    (leftKeyColumn rightKeyColumn : String)
    (columnsToMerge : List String) : List Row :=
  let rightDataMap := buildRightDataMap rightData rightKeyColumn
  leftData.map (fun leftRow =>
    match mapGet rightDataMap (rowGet leftRow leftKeyColumn) with
    | some rightRow => mergeRow columnsToMerge rightRow leftRow
    | none => leftRow)

example :
    (runLocalComparison
      [[("id", Value.num 1), ("name", Value.str "A")],
       [("id", Value.num 2), ("name", Value.str "B")]]
      [[("id", Value.num 2), ("name", Value.str "B2")],
       [("id", Value.num 3), ("name", Value.str "C")]]
      "id" "id").comparison.map ComparisonEntry.status
    = [.inSheet1Only, .changed, .inSheet2Only] := by rfl

/-! ### Basic lemmas about row and map primitives -/

theorem rowGet_setCol (r : Row) (n c : String) (v : Value) :
    rowGet (setCol r n v) c = if n = c then v else rowGet r c := by
  induction r with
  | nil => simp [setCol, rowGet]
  | cons p rest ih =>
    obtain ⟨c', v'⟩ := p
    by_cases h1 : c' = n
    · subst h1
      by_cases h2 : c' = c <;> simp [setCol, rowGet, h2]
    · by_cases h2 : c' = c
      · subst h2
        have hnc : ¬ n = c' := fun h => h1 h.symm
        simp [setCol, h1, rowGet, hnc]
      · simp [setCol, h1, rowGet, h2, ih]

theorem rowHas_setCol (r : Row) (n c : String) (v : Value) :
    rowHas (setCol r n v) c = (decide (n = c) || rowHas r c) := by
  induction r with
  | nil => simp [setCol, rowHas]
  | cons p rest ih =>
    obtain ⟨c', v'⟩ := p
    by_cases h1 : c' = n
    · subst h1
      by_cases h2 : c' = c <;> simp [setCol, rowHas, h2]
    · by_cases h2 : c' = c
      · subst h2
        have h3 : ¬ c' = n := h1
        simp [setCol, h3, rowHas]
      · simp [setCol, h1, rowHas, h2, ih]

theorem rowGet_eq_undef (r : Row) (c : String) (h : rowHas r c = false) :
    rowGet r c = .undef := by
  induction r with
  | nil => simp [rowGet]
  | cons p rest ih =>
    obtain ⟨c', v'⟩ := p
    by_cases h2 : c' = c
    · subst h2; simp [rowHas] at h
    · simp [rowHas, h2] at h
      simp [rowGet, h2, ih h]

/-! ### Lemmas about `jsSetOfList` -/

theorem jsSetOfList_foldl_mem {α : Type} [DecidableEq α] (l : List α) (acc : List α) (x : α) :
    x ∈ l.foldl (fun acc y => if y ∈ acc then acc else acc ++ [y]) acc ↔ x ∈ acc ∨ x ∈ l := by
  induction l generalizing acc with
  | nil => simp
  | cons a t ih =>
    simp only [List.foldl_cons, List.mem_cons]
    by_cases h : a ∈ acc
    · rw [if_pos h, ih]
      constructor
      · rintro (h1 | h2)
        · exact Or.inl h1
        · exact Or.inr (Or.inr h2)
      · rintro (h1 | h2 | h3)
        · exact Or.inl h1
        · exact Or.inl (h2 ▸ h)
        · exact Or.inr h3
    · rw [if_neg h, ih]
      simp only [List.mem_append, List.mem_singleton]
      tauto

theorem mem_jsSetOfList {α : Type} [DecidableEq α] (l : List α) (x : α) :
    x ∈ jsSetOfList l ↔ x ∈ l := by
  unfold jsSetOfList
  rw [jsSetOfList_foldl_mem]
  simp

theorem jsSetOfList_foldl_nodup {α : Type} [DecidableEq α] (l : List α) (acc : List α)
    (hacc : acc.Nodup) :
    (l.foldl (fun acc y => if y ∈ acc then acc else acc ++ [y]) acc).Nodup := by
  induction l generalizing acc with
  | nil => simpa using hacc
  | cons a t ih =>
    simp only [List.foldl_cons]
    by_cases h : a ∈ acc
    · simp only [h, if_pos]
      exact ih acc hacc
    · simp only [h, if_neg, not_false_iff]
      refine ih _ ?_
      simp [List.nodup_append, hacc, h]

theorem nodup_jsSetOfList {α : Type} [DecidableEq α] (l : List α) :
    (jsSetOfList l).Nodup := by
  unfold jsSetOfList
  exact jsSetOfList_foldl_nodup l [] (by simp)

/-! ### Lemmas about the grouping map -/

theorem lookupGroup_insertGroup (m : List (Value × List Row)) (k0 k : Value) (r : Row) :
    lookupGroup (insertGroup m k0 r) k =
      if k0 = k then lookupGroup m k ++ [r] else lookupGroup m k := by
  induction m with
  | nil =>
    by_cases h : k0 = k <;> simp [insertGroup, lookupGroup, h]
  | cons p rest ih =>
    obtain ⟨k', g⟩ := p
    by_cases h1 : k' = k0
    · subst h1
      by_cases h2 : k' = k
      · subst h2; simp [insertGroup, lookupGroup]
      · simp [insertGroup, lookupGroup, h2]
    · by_cases h2 : k' = k
      · subst h2
        have : ¬ k0 = k' := fun h => h1 h.symm
        simp [insertGroup, h1, lookupGroup, this]
      · simp [insertGroup, h1, lookupGroup, h2, ih]

theorem lookupGroup_foldl (d : List Row) (c : String) (m : List (Value × List Row)) (k : Value) :
    lookupGroup (d.foldl (fun m row => insertGroup m (rowGet row c) row) m) k =
      lookupGroup m k ++ (d.filter (fun r => decide (rowGet r c = k))) := by
  induction d generalizing m with
  | nil => simp
  | cons r t ih =>
    simp only [List.foldl_cons, ih, List.filter_cons]
    by_cases h : rowGet r c = k
    · simp [h, lookupGroup_insertGroup]
    · simp [h, lookupGroup_insertGroup]

theorem lookupGroup_groupRowsByKey (d : List Row) (c : String) (k : Value) :
    lookupGroup (groupRowsByKey d c) k = d.filter (fun r => decide (rowGet r c = k)) := by
  unfold groupRowsByKey
  rw [lookupGroup_foldl]
  simp [lookupGroup]

theorem keys_insertGroup (m : List (Value × List Row)) (k : Value) (r : Row) :
    (insertGroup m k r).map Prod.fst =
      if k ∈ m.map Prod.fst then m.map Prod.fst else m.map Prod.fst ++ [k] := by
  induction m with
  | nil => simp [insertGroup]
  | cons p rest ih =>
    obtain ⟨k', g⟩ := p
    by_cases h : k' = k
    · subst h; simp [insertGroup]
    · have h2 : ¬ k = k' := fun hh => h hh.symm
      by_cases h3 : k ∈ rest.map Prod.fst <;>
        simp [insertGroup, h, ih, h2, h3]

theorem nodup_keys_foldl (d : List Row) (c : String) (m : List (Value × List Row))
    (hm : (m.map Prod.fst).Nodup) :
    ((d.foldl (fun m row => insertGroup m (rowGet row c) row) m).map Prod.fst).Nodup := by
  induction d generalizing m with
  | nil => simpa using hm
  | cons r t ih =>
    simp only [List.foldl_cons]
    refine ih _ ?_
    rw [keys_insertGroup]
    by_cases h : rowGet r c ∈ m.map Prod.fst
    · simpa [h] using hm
    · simp [h, List.nodup_append, hm]

theorem nodup_keys_groupRowsByKey (d : List Row) (c : String) :
    ((groupRowsByKey d c).map Prod.fst).Nodup :=
  nodup_keys_foldl d c [] (by simp)

theorem sumLen_insertGroup (m : List (Value × List Row)) (k : Value) (r : Row) :
    ((insertGroup m k r).map (fun g => g.2.length)).sum =
      (m.map (fun g => g.2.length)).sum + 1 := by
  induction m with
  | nil => simp [insertGroup]
  | cons p rest ih =>
    obtain ⟨k', g⟩ := p
    by_cases h : k' = k
    · subst h; simp [insertGroup]; omega
    · simp [insertGroup, h, ih]; omega

theorem sumLen_foldl (d : List Row) (c : String) (m : List (Value × List Row)) :
    ((d.foldl (fun m row => insertGroup m (rowGet row c) row) m).map
        (fun g => g.2.length)).sum
      = (m.map (fun g => g.2.length)).sum + d.length := by
  induction d generalizing m with
  | nil => simp
  | cons r t ih =>
    simp only [List.foldl_cons, ih, sumLen_insertGroup, List.length_cons]
    omega

theorem sumLen_groupRowsByKey (d : List Row) (c : String) :
    ((groupRowsByKey d c).map (fun g => g.2.length)).sum = d.length := by
  unfold groupRowsByKey
  rw [sumLen_foldl]
  simp

theorem sum_lookup_over_keys (m : List (Value × List Row)) (hm : (m.map Prod.fst).Nodup)
    (ks : List Value) (hks : ks.Nodup) (hsub : ∀ k ∈ m.map Prod.fst, k ∈ ks) :
    (ks.map (fun k => (lookupGroup m k).length)).sum
      = (m.map (fun g => g.2.length)).sum := by
  induction m generalizing ks with
  | nil =>
    simp [lookupGroup]
  | cons p rest ih =>
    obtain ⟨k0, g0⟩ := p
    simp only [List.map_cons, List.nodup_cons] at hm
    obtain ⟨hk0, hrest⟩ := hm
    have hk0ks : k0 ∈ ks := hsub k0 (by simp)
    have hperm : List.Perm ks (k0 :: ks.erase k0) := List.perm_cons_erase hk0ks
    have hsum : (ks.map (fun k => (lookupGroup ((k0, g0) :: rest) k).length)).sum
        = ((k0 :: ks.erase k0).map
            (fun k => (lookupGroup ((k0, g0) :: rest) k).length)).sum :=
      (hperm.map _).sum_eq
    rw [hsum]
    simp only [List.map_cons, List.sum_cons]
    have hhead : lookupGroup ((k0, g0) :: rest) k0 = g0 := by simp [lookupGroup]
    have htail : ∀ k ∈ ks.erase k0,
        (lookupGroup ((k0, g0) :: rest) k).length = (lookupGroup rest k).length := by
      intro k hk
      have hne : k ≠ k0 := (hks.mem_erase_iff.1 hk).1
      have h2 : ¬ k0 = k := fun hh => hne hh.symm
      simp [lookupGroup, h2]
    have hcov : ∀ k ∈ rest.map Prod.fst, k ∈ ks.erase k0 := by
      intro k hk
      have hne : k ≠ k0 := fun hh => hk0 (hh ▸ hk)
      exact hks.mem_erase_iff.2 ⟨hne, hsub k (by simp [hk])⟩
    rw [hhead, List.map_congr_left htail, ih hrest (ks.erase k0) (hks.erase k0) hcov]

/-! ### Lemmas about `entriesForKey` -/

theorem length_entriesForKey (cols : List String) (k : Value) (l1 l2 : List Row) :
    (entriesForKey cols k l1 l2).length = max l1.length l2.length := by
  induction l1 generalizing l2 with
  | nil => simp [entriesForKey]
  | cons r1 t1 ih =>
    cases l2 with
    | nil =>
      simp only [entriesForKey, List.length_cons, ih]
      simp
    | cons r2 t2 =>
      simp only [entriesForKey, List.length_cons, ih]
      omega

theorem countP_data1_entriesForKey (cols : List String) (k : Value) (l1 l2 : List Row) :
    (entriesForKey cols k l1 l2).countP (fun e => e.data1.isSome) = l1.length := by
  induction l1 generalizing l2 with
  | nil =>
    induction l2 with
    | nil => simp [entriesForKey]
    | cons r2 t2 ih2 =>
      simp only [entriesForKey, List.map_cons, List.countP_cons] at ih2 ⊢
      simp [ih2]
  | cons r1 t1 ih =>
    cases l2 with
    | nil => simp [entriesForKey, List.countP_cons, ih]
    | cons r2 t2 => simp [entriesForKey, List.countP_cons, ih]

theorem countP_data2_entriesForKey (cols : List String) (k : Value) (l1 l2 : List Row) :
    (entriesForKey cols k l1 l2).countP (fun e => e.data2.isSome) = l2.length := by
  induction l1 generalizing l2 with
  | nil =>
    induction l2 with
    | nil => simp [entriesForKey]
    | cons r2 t2 ih2 =>
      simp only [entriesForKey, List.map_cons, List.countP_cons] at ih2 ⊢
      simp [ih2]
  | cons r1 t1 ih =>
    cases l2 with
    | nil =>
      simp only [entriesForKey, List.countP_cons, ih]
      simp
    | cons r2 t2 =>
      simp only [entriesForKey, List.countP_cons, ih]
      simp

theorem key_of_mem_entriesForKey (cols : List String) (k : Value) (l1 l2 : List Row)
    (e : ComparisonEntry) (he : e ∈ entriesForKey cols k l1 l2) : e.key = k := by
  induction l1 generalizing l2 with
  | nil =>
    simp only [entriesForKey, List.mem_map] at he
    obtain ⟨r2, _, rfl⟩ := he
    rfl
  | cons r1 t1 ih =>
    cases l2 with
    | nil =>
      simp only [entriesForKey, List.mem_cons] at he
      rcases he with rfl | he
      · rfl
      · exact ih [] he
    | cons r2 t2 =>
      simp only [entriesForKey, List.mem_cons] at he
      rcases he with rfl | he
      · rfl
      · exact ih t2 he

theorem data1_of_mem_entriesForKey (cols : List String) (k : Value) (l1 l2 : List Row)
    (e : ComparisonEntry) (he : e ∈ entriesForKey cols k l1 l2) (r : Row)
    (hr : e.data1 = some r) : r ∈ l1 := by
  induction l1 generalizing l2 with
  | nil =>
    simp only [entriesForKey, List.mem_map] at he
    obtain ⟨r2, _, rfl⟩ := he
    simp at hr
  | cons r1 t1 ih =>
    cases l2 with
    | nil =>
      simp only [entriesForKey, List.mem_cons] at he
      rcases he with rfl | he
      · simp only [Option.some.injEq] at hr
        subst hr
        simp
      · exact List.mem_cons_of_mem _ (ih [] he)
    | cons r2 t2 =>
      simp only [entriesForKey, List.mem_cons] at he
      rcases he with rfl | he
      · simp only [Option.some.injEq] at hr
        subst hr
        simp
      · exact List.mem_cons_of_mem _ (ih t2 he)

theorem status_of_mem_entriesForKey (cols : List String) (k : Value) (l1 l2 : List Row)
    (e : ComparisonEntry) (he : e ∈ entriesForKey cols k l1 l2) (r1 r2 : Row)
    (h1 : e.data1 = some r1) (h2 : e.data2 = some r2) :
    e.status = if isChangedRow cols r1 r2 then .changed else .unchanged := by
  induction l1 generalizing l2 with
  | nil =>
    simp only [entriesForKey, List.mem_map] at he
    obtain ⟨r2', _, rfl⟩ := he
    simp at h1
  | cons r1' t1 ih =>
    cases l2 with
    | nil =>
      simp only [entriesForKey, List.mem_cons] at he
      rcases he with rfl | he
      · simp at h2
      · exact ih [] he
    | cons r2' t2 =>
      simp only [entriesForKey, List.mem_cons] at he
      rcases he with rfl | he
      · simp only [Option.some.injEq] at h1 h2
        subst h1
        subst h2
        rfl
      · exact ih t2 he

theorem getElem?_entriesForKey (cols : List String) (k : Value) (l1 l2 : List Row)
    (i : Nat) (e : ComparisonEntry) (he : (entriesForKey cols k l1 l2)[i]? = some e) :
    e.data1 = l1[i]? ∧ e.data2 = l2[i]? := by
  induction l1 generalizing l2 i with
  | nil =>
    induction l2 generalizing i with
    | nil => simp [entriesForKey] at he
    | cons r2 t2 ih2 =>
      cases i with
      | zero =>
        simp only [entriesForKey, List.map_cons, List.getElem?_cons_zero,
          Option.some.injEq] at he
        subst he
        simp
      | succ j =>
        have he2 : (entriesForKey cols k [] t2)[j]? = some e := by
          simpa [entriesForKey] using he
        have h3 := ih2 j he2
        simpa using h3
  | cons r1 t1 ih =>
    cases l2 with
    | nil =>
      cases i with
      | zero =>
        simp only [entriesForKey, List.getElem?_cons_zero, Option.some.injEq] at he
        cases he
        simp
      | succ j =>
        simp only [entriesForKey, List.getElem?_cons_succ] at he
        have := ih [] j he
        simpa using this
    | cons r2 t2 =>
      cases i with
      | zero =>
        simp only [entriesForKey, List.getElem?_cons_zero, Option.some.injEq] at he
        cases he
        simp
      | succ j =>
        simp only [entriesForKey, List.getElem?_cons_succ] at he
        simpa using ih t2 j he

/-! ### Lemmas about the merge lookup map -/

theorem mapGet_mapSet (m : List (Value × Row)) (k0 k : Value) (r : Row) :
    mapGet (mapSet m k0 r) k = if k0 = k then some r else mapGet m k := by
  induction m with
  | nil => by_cases h : k0 = k <;> simp [mapSet, mapGet, h]
  | cons p rest ih =>
    obtain ⟨k', r'⟩ := p
    by_cases h1 : k' = k0
    · subst h1
      by_cases h2 : k' = k <;> simp [mapSet, mapGet, h2]
    · by_cases h2 : k' = k
      · subst h2
        have h3 : ¬ k0 = k' := fun hh => h1 hh.symm
        simp [mapSet, h1, mapGet, h3]
      · simp [mapSet, h1, mapGet, h2, ih]

theorem mapGet_foldl_lastWins (R : List Row) (rk : String) (k : Value)
    (hk1 : k ≠ Value.null) (hk2 : k ≠ Value.undef) (m : List (Value × Row)) :
    mapGet (R.foldl (fun m row =>
        if rowGet row rk ≠ Value.null ∧ rowGet row rk ≠ Value.undef
        then mapSet m (rowGet row rk) row else m) m) k
      = match (R.filter (fun r => decide (rowGet r rk = k))).getLast? with
        | some r => some r
        | none => mapGet m k := by
  induction R generalizing m with
  | nil => simp
  | cons r t ih =>
    simp only [List.foldl_cons, List.filter_cons]
    by_cases h : rowGet r rk = k
    · have hcond : rowGet r rk ≠ Value.null ∧ rowGet r rk ≠ Value.undef := by
        rw [h]; exact ⟨hk1, hk2⟩
      rw [if_pos hcond, if_pos (by simp [h]), h, ih]
      cases hfl : (t.filter (fun r => decide (rowGet r rk = k))).getLast? with
      | some r' => simp [List.getLast?_cons, hfl]
      | none => simp [List.getLast?_cons, hfl, mapGet_mapSet]
    · by_cases hc : rowGet r rk ≠ Value.null ∧ rowGet r rk ≠ Value.undef
      · rw [if_pos hc, if_neg (by simp [h]), ih]
        have hget : mapGet (mapSet m (rowGet r rk) r) k = mapGet m k := by
          rw [mapGet_mapSet, if_neg h]
        cases hfl : (t.filter (fun r => decide (rowGet r rk = k))).getLast? <;>
          simp [hfl, hget]
      · rw [if_neg hc, if_neg (by simp [h]), ih]

theorem mapGet_buildRightDataMap (R : List Row) (rk : String) (k : Value)
    (hk1 : k ≠ Value.null) (hk2 : k ≠ Value.undef) :
    mapGet (buildRightDataMap R rk) k
      = (R.filter (fun r => decide (rowGet r rk = k))).getLast? := by
  unfold buildRightDataMap
  rw [mapGet_foldl_lastWins R rk k hk1 hk2]
  cases hfl : (R.filter (fun r => decide (rowGet r rk = k))).getLast? <;> simp [mapGet]

theorem mapGet_buildRightDataMap_nullish (R : List Row) (rk : String) (k : Value)
    (hk : k = Value.null ∨ k = Value.undef) :
    mapGet (buildRightDataMap R rk) k = none := by
  unfold buildRightDataMap
  suffices h : ∀ m, mapGet m k = none →
      mapGet (R.foldl (fun m row =>
        if rowGet row rk ≠ Value.null ∧ rowGet row rk ≠ Value.undef
        then mapSet m (rowGet row rk) row else m) m) k = none by
    exact h [] rfl
  induction R with
  | nil => intro m hm; simpa using hm
  | cons r t ih =>
    intro m hm
    simp only [List.foldl_cons]
    by_cases hc : rowGet r rk ≠ Value.null ∧ rowGet r rk ≠ Value.undef
    · rw [if_pos hc]
      refine ih _ ?_
      rw [mapGet_mapSet, if_neg, hm]
      rcases hk with hk | hk <;> (subst hk; intro hh)
      · exact hc.1 hh
      · exact hc.2 hh
    · rw [if_neg hc]
      exact ih m hm

/-! ### Lemmas about `mergeRow` -/

theorem append_merged_ne (s : String) : s ++ "_(Merged)" ≠ s := by
  intro h
  have hl := congrArg String.length h
  rw [String.length_append] at hl
  have h9 : ("_(Merged)" : String).length = 9 := by decide
  omega

theorem append_merged_inj (s t : String) (h : s ++ "_(Merged)" = t ++ "_(Merged)") :
    s = t := by
  have hd := congrArg String.data h
  rw [String.data_append, String.data_append] at hd
  exact String.ext (List.append_cancel_right hd)

theorem rowHas_mergeStep (rr nr : Row) (col c : String) (h : rowHas nr c = true) :
    rowHas (mergeStep rr nr col) c = true := by
  unfold mergeStep
  by_cases hc : rowHas nr col = false <;> simp [hc, rowHas_setCol, h]

theorem rowHas_foldl_mergeStep (rr : Row) (t : List String) (nr : Row) (c : String)
    (h : rowHas nr c = true) : rowHas (t.foldl (mergeStep rr) nr) c = true := by
  induction t generalizing nr with
  | nil => simpa using h
  | cons a tt ih =>
    simp only [List.foldl_cons]
    exact ih _ (rowHas_mergeStep rr nr a c h)

theorem rowGet_mergeStep_ne (rr nr : Row) (a c : String) (h1 : a ≠ c)
    (h2 : a ++ "_(Merged)" ≠ c) : rowGet (mergeStep rr nr a) c = rowGet nr c := by
  unfold mergeStep
  by_cases h : rowHas nr a = false <;> simp [h, rowGet_setCol, h1, h2]

theorem foldl_mergeStep_phaseB (rr : Row) (X : String) (t : List String)
    (hM : ∀ c ∈ t, c ++ "_(Merged)" ≠ X) (nr : Row)
    (hhasX : rowHas nr X = true)
    (hvM : rowGet nr (X ++ "_(Merged)") = rowGet rr X)
    (hhasM : rowHas nr (X ++ "_(Merged)") = true) :
    rowGet (t.foldl (mergeStep rr) nr) X = rowGet nr X ∧
    rowGet (t.foldl (mergeStep rr) nr) (X ++ "_(Merged)") = rowGet rr X ∧
    rowHas (t.foldl (mergeStep rr) nr) (X ++ "_(Merged)") = true := by
  induction t generalizing nr with
  | nil => exact ⟨rfl, hvM, hhasM⟩
  | cons a tt ih =>
    simp only [List.foldl_cons]
    have hMtt : ∀ c ∈ tt, c ++ "_(Merged)" ≠ X :=
      fun c hc => hM c (List.mem_cons_of_mem _ hc)
    by_cases hax : a = X
    · subst hax
      have hstep : mergeStep rr nr a = setCol nr (a ++ "_(Merged)") (rowGet rr a) := by
        unfold mergeStep
        rw [hhasX]
        simp
      rw [hstep]
      have h1 : rowGet (setCol nr (a ++ "_(Merged)") (rowGet rr a)) a = rowGet nr a := by
        rw [rowGet_setCol, if_neg (append_merged_ne a)]
      have h2 : rowGet (setCol nr (a ++ "_(Merged)") (rowGet rr a)) (a ++ "_(Merged)")
          = rowGet rr a := by
        rw [rowGet_setCol, if_pos rfl]
      have h3 : rowHas (setCol nr (a ++ "_(Merged)") (rowGet rr a)) a = true := by
        rw [rowHas_setCol, hhasX]
        simp
      have h4 : rowHas (setCol nr (a ++ "_(Merged)") (rowGet rr a)) (a ++ "_(Merged)")
          = true := by
        rw [rowHas_setCol]
        simp
      obtain ⟨g1, g2, g3⟩ := ih hMtt _ h3 h2 h4
      exact ⟨g1.trans h1, g2, g3⟩
    · have hamX : a ++ "_(Merged)" ≠ X := hM a (by simp)
      have hamM : a ++ "_(Merged)" ≠ X ++ "_(Merged)" := fun hh =>
        hax (append_merged_inj a X hh)
      have hgX : rowGet (mergeStep rr nr a) X = rowGet nr X :=
        rowGet_mergeStep_ne rr nr a X hax hamX
      have hhX : rowHas (mergeStep rr nr a) X = true :=
        rowHas_mergeStep rr nr a X hhasX
      have hhM : rowHas (mergeStep rr nr a) (X ++ "_(Merged)") = true :=
        rowHas_mergeStep rr nr a _ hhasM
      have hgM : rowGet (mergeStep rr nr a) (X ++ "_(Merged)") = rowGet rr X := by
        unfold mergeStep
        by_cases hhasa : rowHas nr a = false
        · have haM : a ≠ X ++ "_(Merged)" := by
            intro hh
            rw [hh, hhasM] at hhasa
            exact absurd hhasa (by simp)
          rw [if_pos hhasa, rowGet_setCol, if_neg haM, hvM]
        · rw [if_neg hhasa, rowGet_setCol, if_neg hamM, hvM]
      obtain ⟨g1, g2, g3⟩ := ih hMtt _ hhX hgM hhM
      exact ⟨g1.trans hgX, g2, g3⟩

/-- The non-overwrite behaviour of one matched merged row: provided no
selected column `c` renames onto `X` (no `c` with `c ++ "_(Merged)" = X`),
an existing column `X` keeps its left value and the right value lands
under `X ++ "_(Merged)"`. -/
theorem mergeRow_nonOverwrite (cols : List String) (rr lr : Row) (X : String)
    (hXmem : X ∈ cols)
    (hM : ∀ c ∈ cols, c ++ "_(Merged)" ≠ X)
    (hhas : rowHas lr X = true) :
    rowGet (mergeRow cols rr lr) X = rowGet lr X ∧
    rowGet (mergeRow cols rr lr) (X ++ "_(Merged)") = rowGet rr X ∧
    rowHas (mergeRow cols rr lr) (X ++ "_(Merged)") = true := by
  unfold mergeRow
  induction cols generalizing lr with
  | nil => simp at hXmem
  | cons a tt ih =>
    simp only [List.foldl_cons]
    have hMtt : ∀ c ∈ tt, c ++ "_(Merged)" ≠ X :=
      fun c hc => hM c (List.mem_cons_of_mem _ hc)
    by_cases hax : a = X
    · subst hax
      have hstep : mergeStep rr lr a = setCol lr (a ++ "_(Merged)") (rowGet rr a) := by
        unfold mergeStep
        rw [hhas]
        simp
      rw [hstep]
      have h2 : rowGet (setCol lr (a ++ "_(Merged)") (rowGet rr a)) (a ++ "_(Merged)")
          = rowGet rr a := by
        rw [rowGet_setCol, if_pos rfl]
      have h3 : rowHas (setCol lr (a ++ "_(Merged)") (rowGet rr a)) a = true := by
        rw [rowHas_setCol, hhas]
        simp
      have h4 : rowHas (setCol lr (a ++ "_(Merged)") (rowGet rr a)) (a ++ "_(Merged)")
          = true := by
        rw [rowHas_setCol]
        simp
      obtain ⟨g1, g2, g3⟩ := foldl_mergeStep_phaseB rr a tt hMtt _ h3 h2 h4
      refine ⟨g1.trans ?_, g2, g3⟩
      rw [rowGet_setCol, if_neg (append_merged_ne a)]
    · have hamX : a ++ "_(Merged)" ≠ X := hM a (by simp)
      have hXtt : X ∈ tt := by
        rcases List.mem_cons.1 hXmem with h | h
        · exact absurd h.symm hax
        · exact h
      have hgX : rowGet (mergeStep rr lr a) X = rowGet lr X :=
        rowGet_mergeStep_ne rr lr a X hax hamX
      have hhX : rowHas (mergeStep rr lr a) X = true :=
        rowHas_mergeStep rr lr a X hhas
      obtain ⟨g1, g2, g3⟩ := ih _ hXtt hMtt hhX
      exact ⟨g1.trans hgX, g2, g3⟩

theorem filterMap_data1_entriesForKey (cols : List String) (k : Value)
    (l1 l2 : List Row) :
    (entriesForKey cols k l1 l2).filterMap (fun e => e.data1) = l1 := by
  induction l1 generalizing l2 with
  | nil =>
    induction l2 with
    | nil => simp [entriesForKey]
    | cons r2 t2 ih2 =>
      simp only [entriesForKey, List.map_cons, List.filterMap_cons] at ih2 ⊢
      simp [ih2]
  | cons r1 t1 ih =>
    cases l2 with
    | nil => simp [entriesForKey, List.filterMap_cons, ih]
    | cons r2 t2 => simp [entriesForKey, List.filterMap_cons, ih]

theorem filterMap_data2_entriesForKey (cols : List String) (k : Value)
    (l1 l2 : List Row) :
    (entriesForKey cols k l1 l2).filterMap (fun e => e.data2) = l2 := by
  induction l1 generalizing l2 with
  | nil =>
    induction l2 with
    | nil => simp [entriesForKey]
    | cons r2 t2 ih2 =>
      simp only [entriesForKey, List.map_cons, List.filterMap_cons] at ih2 ⊢
      simpa using ih2
  | cons r1 t1 ih =>
    cases l2 with
    | nil => simp [entriesForKey, List.filterMap_cons, ih]
    | cons r2 t2 => simp [entriesForKey, List.filterMap_cons, ih]

theorem perm_lookup_over_keys (m : List (Value × List Row))
    (hm : (m.map Prod.fst).Nodup) (ks : List Value) (hks : ks.Nodup)
    (hsub : ∀ k ∈ m.map Prod.fst, k ∈ ks) :
    List.Perm ((ks.map (lookupGroup m)).flatten) ((m.map Prod.snd).flatten) := by
  induction m generalizing ks with
  | nil =>
    have hz : ks.map (lookupGroup ([] : List (Value × List Row))) = ks.map (fun _ => []) := by
      simp [lookupGroup]
    rw [hz]
    have : (ks.map (fun _ => ([] : List Row))).flatten = [] := by
      induction ks with
      | nil => rfl
      | cons a t iht => simp [iht]
    rw [this]
    rfl
  | cons p rest ih =>
    obtain ⟨k0, g0⟩ := p
    simp only [List.map_cons, List.nodup_cons] at hm
    obtain ⟨hk0, hrest⟩ := hm
    have hk0ks : k0 ∈ ks := hsub k0 (by simp)
    have hperm : List.Perm ks (k0 :: ks.erase k0) := List.perm_cons_erase hk0ks
    have hflat : List.Perm ((ks.map (lookupGroup ((k0, g0) :: rest))).flatten)
        (((k0 :: ks.erase k0).map (lookupGroup ((k0, g0) :: rest))).flatten) :=
      (hperm.map _).flatten
    refine hflat.trans ?_
    simp only [List.map_cons, List.flatten_cons]
    have hhead : lookupGroup ((k0, g0) :: rest) k0 = g0 := by simp [lookupGroup]
    have htail : ∀ k ∈ ks.erase k0,
        lookupGroup ((k0, g0) :: rest) k = lookupGroup rest k := by
      intro k hk
      have hne : k ≠ k0 := (hks.mem_erase_iff.1 hk).1
      have h2 : ¬ k0 = k := fun hh => hne hh.symm
      simp [lookupGroup, h2]
    have hcov : ∀ k ∈ rest.map Prod.fst, k ∈ ks.erase k0 := by
      intro k hk
      have hne : k ≠ k0 := fun hh => hk0 (hh ▸ hk)
      exact hks.mem_erase_iff.2 ⟨hne, hsub k (by simp [hk])⟩
    rw [hhead, List.map_congr_left htail]
    exact (ih hrest (ks.erase k0) (hks.erase k0) hcov).append_left g0

theorem flatten_insertGroup_perm (m : List (Value × List Row)) (k : Value) (r : Row) :
    List.Perm (((insertGroup m k r).map Prod.snd).flatten)
      ((m.map Prod.snd).flatten ++ [r]) := by
  induction m with
  | nil => simp [insertGroup]
  | cons p rest ih =>
    obtain ⟨k0, g0⟩ := p
    by_cases h : k0 = k
    · subst h
      simp only [insertGroup, eq_self_iff_true, if_true, List.map_cons,
        List.flatten_cons]
      rw [List.append_assoc, List.append_assoc]
      exact List.Perm.append_left g0 List.perm_append_comm
    · simp only [insertGroup, h, if_false, List.map_cons, List.flatten_cons]
      rw [List.append_assoc]
      exact ih.append_left g0

theorem flatten_groupRowsByKey_perm (d : List Row) (c : String) :
    List.Perm (((groupRowsByKey d c).map Prod.snd).flatten) d := by
  have hgen : ∀ (t : List Row) (m : List (Value × List Row)),
      List.Perm (((t.foldl (fun m row => insertGroup m (rowGet row c) row) m).map
          Prod.snd).flatten)
        ((m.map Prod.snd).flatten ++ t) := by
    intro t
    induction t with
    | nil => intro m; simp
    | cons r tt ih =>
      intro m
      rw [List.foldl_cons]
      refine (ih (insertGroup m (rowGet r c) r)).trans ?_
      have h1 := flatten_insertGroup_perm m (rowGet r c) r
      have h2 : List.Perm ((m.map Prod.snd).flatten ++ [r] ++ tt)
          ((m.map Prod.snd).flatten ++ (r :: tt)) := by
        rw [List.append_assoc]
        rfl
      exact (h1.append_right tt).trans h2
  have h := hgen d []
  simpa using h

/-! ### Claim theorems -/

/-- C1: in `runLocalComparison`, each row of table 1 appears in exactly one
entry as the non-null `data1` and each row of table 2 as the non-null
`data2` (the non-null `data1` fields, in order, are a permutation of the
input rows, and likewise for `data2`); hence the number of entries with
non-null `data1` equals `data1.length`, the number with non-null `data2`
equals `data2.length`, and the total entry count is the sum over the union
key list of `max(|group1|, |group2|)`. -/
theorem c1_row_conservation (data1 data2 : List Row) (key1 key2 : String) :
    List.Perm ((runLocalComparison data1 data2 key1 key2).comparison.filterMap
        (fun e => e.data1)) data1 ∧
    List.Perm ((runLocalComparison data1 data2 key1 key2).comparison.filterMap
        (fun e => e.data2)) data2 ∧
    (runLocalComparison data1 data2 key1 key2).comparison.countP
        (fun e => e.data1.isSome) = data1.length ∧
    (runLocalComparison data1 data2 key1 key2).comparison.countP
        (fun e => e.data2.isSome) = data2.length ∧
    (runLocalComparison data1 data2 key1 key2).comparison.length
      = ((jsSetOfList ((groupRowsByKey data1 key1).map Prod.fst
            ++ (groupRowsByKey data2 key2).map Prod.fst)).map
          (fun k => max (lookupGroup (groupRowsByKey data1 key1) k).length
              (lookupGroup (groupRowsByKey data2 key2) k).length)).sum := by
  have hmain : (runLocalComparison data1 data2 key1 key2).comparison
      = ((jsSetOfList ((groupRowsByKey data1 key1).map Prod.fst
            ++ (groupRowsByKey data2 key2).map Prod.fst)).map
          (fun k => entriesForKey
              (jsSetOfList (sheetColumns data1 ++ sheetColumns data2)) k
              (lookupGroup (groupRowsByKey data1 key1) k)
              (lookupGroup (groupRowsByKey data2 key2) k))).flatten := rfl
  have hks_nodup : (jsSetOfList ((groupRowsByKey data1 key1).map Prod.fst
      ++ (groupRowsByKey data2 key2).map Prod.fst)).Nodup := nodup_jsSetOfList _
  refine ⟨?_, ?_, ?_, ?_, ?_⟩
  · rw [hmain, List.filterMap_flatten, List.map_map]
    have hcong := List.map_congr_left
      (l := jsSetOfList ((groupRowsByKey data1 key1).map Prod.fst
          ++ (groupRowsByKey data2 key2).map Prod.fst))
      (f := (List.filterMap (fun e => e.data1)) ∘
        (fun k => entriesForKey
            (jsSetOfList (sheetColumns data1 ++ sheetColumns data2)) k
            (lookupGroup (groupRowsByKey data1 key1) k)
            (lookupGroup (groupRowsByKey data2 key2) k)))
      (g := lookupGroup (groupRowsByKey data1 key1))
      (fun k _ => filterMap_data1_entriesForKey _ _ _ _)
    rw [hcong]
    exact (perm_lookup_over_keys (groupRowsByKey data1 key1)
        (nodup_keys_groupRowsByKey data1 key1) _ hks_nodup
        (fun k hk => by rw [mem_jsSetOfList]; exact List.mem_append_left _ hk)).trans
      (flatten_groupRowsByKey_perm data1 key1)
  · rw [hmain, List.filterMap_flatten, List.map_map]
    have hcong := List.map_congr_left
      (l := jsSetOfList ((groupRowsByKey data1 key1).map Prod.fst
          ++ (groupRowsByKey data2 key2).map Prod.fst))
      (f := (List.filterMap (fun e => e.data2)) ∘
        (fun k => entriesForKey
            (jsSetOfList (sheetColumns data1 ++ sheetColumns data2)) k
            (lookupGroup (groupRowsByKey data1 key1) k)
            (lookupGroup (groupRowsByKey data2 key2) k)))
      (g := lookupGroup (groupRowsByKey data2 key2))
      (fun k _ => filterMap_data2_entriesForKey _ _ _ _)
    rw [hcong]
    exact (perm_lookup_over_keys (groupRowsByKey data2 key2)
        (nodup_keys_groupRowsByKey data2 key2) _ hks_nodup
        (fun k hk => by rw [mem_jsSetOfList]; exact List.mem_append_right _ hk)).trans
      (flatten_groupRowsByKey_perm data2 key2)
  · rw [hmain, List.countP_flatten, List.map_map]
    have hcong := List.map_congr_left
      (l := jsSetOfList ((groupRowsByKey data1 key1).map Prod.fst
          ++ (groupRowsByKey data2 key2).map Prod.fst))
      (f := (List.countP (fun e => e.data1.isSome)) ∘
        (fun k => entriesForKey
            (jsSetOfList (sheetColumns data1 ++ sheetColumns data2)) k
            (lookupGroup (groupRowsByKey data1 key1) k)
            (lookupGroup (groupRowsByKey data2 key2) k)))
      (g := fun k => (lookupGroup (groupRowsByKey data1 key1) k).length)
      (fun k _ => countP_data1_entriesForKey _ _ _ _)
    rw [hcong, sum_lookup_over_keys (groupRowsByKey data1 key1)
        (nodup_keys_groupRowsByKey data1 key1) _ hks_nodup
        (fun k hk => by rw [mem_jsSetOfList]; exact List.mem_append_left _ hk),
      sumLen_groupRowsByKey]
  · rw [hmain, List.countP_flatten, List.map_map]
    have hcong := List.map_congr_left
      (l := jsSetOfList ((groupRowsByKey data1 key1).map Prod.fst
          ++ (groupRowsByKey data2 key2).map Prod.fst))
      (f := (List.countP (fun e => e.data2.isSome)) ∘
        (fun k => entriesForKey
            (jsSetOfList (sheetColumns data1 ++ sheetColumns data2)) k
            (lookupGroup (groupRowsByKey data1 key1) k)
            (lookupGroup (groupRowsByKey data2 key2) k)))
      (g := fun k => (lookupGroup (groupRowsByKey data2 key2) k).length)
      (fun k _ => countP_data2_entriesForKey _ _ _ _)
    rw [hcong, sum_lookup_over_keys (groupRowsByKey data2 key2)
        (nodup_keys_groupRowsByKey data2 key2) _ hks_nodup
        (fun k hk => by rw [mem_jsSetOfList]; exact List.mem_append_right _ hk),
      sumLen_groupRowsByKey]
  · rw [hmain, List.length_flatten, List.map_map]
    refine congrArg List.sum (List.map_congr_left ?_)
    intro k _
    exact length_entriesForKey _ _ _ _

theorem isChangedRow_iff (cols : List String) (r1 r2 : Row) :
    isChangedRow cols r1 r2 = true ↔
      ¬ ∀ c ∈ cols, coerceStr (rowGet r1 c) = coerceStr (rowGet r2 c) := by
  unfold isChangedRow
  rw [List.any_eq_true]
  push_neg
  constructor
  · rintro ⟨c, hc, hne⟩
    exact ⟨c, hc, by simpa using hne⟩
  · rintro ⟨c, hc, hne⟩
    exact ⟨c, hc, by simpa using hne⟩

/-- C2: for every entry of a comparison result with both rows present, the
status is `Unchanged` iff every column of `allColumns` has equal
string-coerced values on both sides (null/absent coerced to the empty
string), and `Changed` iff some such column differs. -/
theorem c2_status_correctness (data1 data2 : List Row) (key1 key2 : String)
    (e : ComparisonEntry)
    (he : e ∈ (runLocalComparison data1 data2 key1 key2).comparison)
    (r1 r2 : Row) (h1 : e.data1 = some r1) (h2 : e.data2 = some r2) :
    (e.status = ComparisonStatus.unchanged ↔
      ∀ c ∈ (runLocalComparison data1 data2 key1 key2).allColumns,
        coerceStr (rowGet r1 c) = coerceStr (rowGet r2 c)) ∧
    (e.status = ComparisonStatus.changed ↔
      ¬ ∀ c ∈ (runLocalComparison data1 data2 key1 key2).allColumns,
        coerceStr (rowGet r1 c) = coerceStr (rowGet r2 c)) := by
  have hmain : (runLocalComparison data1 data2 key1 key2).comparison
      = ((jsSetOfList ((groupRowsByKey data1 key1).map Prod.fst
            ++ (groupRowsByKey data2 key2).map Prod.fst)).map
          (fun k => entriesForKey
              (jsSetOfList (sheetColumns data1 ++ sheetColumns data2)) k
              (lookupGroup (groupRowsByKey data1 key1) k)
              (lookupGroup (groupRowsByKey data2 key2) k))).flatten := rfl
  have hcols : (runLocalComparison data1 data2 key1 key2).allColumns
      = jsSetOfList (sheetColumns data1 ++ sheetColumns data2) := rfl
  rw [hmain, List.mem_flatten] at he
  obtain ⟨l, hl, hel⟩ := he
  rw [List.mem_map] at hl
  obtain ⟨k, _, rfl⟩ := hl
  have hst := status_of_mem_entriesForKey _ _ _ _ _ hel r1 r2 h1 h2
  rw [hcols, hst]
  by_cases hch : isChangedRow (jsSetOfList (sheetColumns data1 ++ sheetColumns data2))
      r1 r2 = true
  · have hnall := (isChangedRow_iff _ r1 r2).1 hch
    rw [if_pos hch]
    exact ⟨⟨fun hc => absurd hc (by simp), fun hc => absurd hc hnall⟩,
      ⟨fun _ => hnall, fun _ => rfl⟩⟩
  · have hall : ∀ c ∈ jsSetOfList (sheetColumns data1 ++ sheetColumns data2),
        coerceStr (rowGet r1 c) = coerceStr (rowGet r2 c) := by
      by_contra hcon
      rw [← isChangedRow_iff] at hcon
      exact hch hcon
    rw [if_neg hch]
    exact ⟨⟨fun _ => hall, fun _ => rfl⟩,
      ⟨fun hc => absurd hc (by simp), fun hc => absurd hall hc⟩⟩

/-- C2 witness: a concrete matched pair with identical rows is
`Unchanged`, with both iffs instantiated at that entry. -/
theorem c2_status_correctness_witness :
    ((ComparisonEntry.mk ComparisonStatus.unchanged (Value.num 1)
        (some [("id", Value.num 1)]) (some [("id", Value.num 1)])).status
        = ComparisonStatus.unchanged ↔
      ∀ c ∈ (runLocalComparison [[("id", Value.num 1)]] [[("id", Value.num 1)]]
          "id" "id").allColumns,
        coerceStr (rowGet [("id", Value.num 1)] c)
          = coerceStr (rowGet [("id", Value.num 1)] c)) ∧
    ((ComparisonEntry.mk ComparisonStatus.unchanged (Value.num 1)
        (some [("id", Value.num 1)]) (some [("id", Value.num 1)])).status
        = ComparisonStatus.changed ↔
      ¬ ∀ c ∈ (runLocalComparison [[("id", Value.num 1)]] [[("id", Value.num 1)]]
          "id" "id").allColumns,
        coerceStr (rowGet [("id", Value.num 1)] c)
          = coerceStr (rowGet [("id", Value.num 1)] c)) :=
  c2_status_correctness [[("id", Value.num 1)]] [[("id", Value.num 1)]] "id" "id"
    (ComparisonEntry.mk ComparisonStatus.unchanged (Value.num 1)
      (some [("id", Value.num 1)]) (some [("id", Value.num 1)]))
    (by decide) [("id", Value.num 1)] [("id", Value.num 1)] rfl rfl

/-- C3 counterexample: the column `b` appears only in the second row of
table 1 (so the claim says it must be in `allColumns`), but the code takes
column sets from the first row of each table only, so `allColumns = [a]`
and `b` is excluded. -/
theorem c3_counterexample :
    ("b" ∈ rowColumns [("a", Value.num 2), ("b", Value.num 3)]) ∧
    (runLocalComparison [[("a", Value.num 1)], [("a", Value.num 2), ("b", Value.num 3)]]
        [[("a", Value.num 1)]] "a" "a").allColumns = ["a"] ∧
    ¬ ("b" ∈ (runLocalComparison
        [[("a", Value.num 1)], [("a", Value.num 2), ("b", Value.num 3)]]
        [[("a", Value.num 1)]] "a" "a").allColumns) := by decide

/-- C3 amended: `allColumns` is the (insertion-ordered, deduplicated)
union of the column names of the FIRST row of each input table; a column
name occurring only in later rows is excluded. -/
theorem c3_allColumns_firstRow (data1 data2 : List Row) (key1 key2 : String)
    (c : String) :
    c ∈ (runLocalComparison data1 data2 key1 key2).allColumns ↔
      c ∈ sheetColumns data1 ∨ c ∈ sheetColumns data2 := by
  have hcols : (runLocalComparison data1 data2 key1 key2).allColumns
      = jsSetOfList (sheetColumns data1 ++ sheetColumns data2) := rfl
  rw [hcols, mem_jsSetOfList, List.mem_append]

/-- C4 counterexample: a row with numeric key `1` and a row with string
key `"1"` have equal string representations, so the claim puts them in one
shared key group producing a single paired entry; the code's `Map` keys
are raw values, so they land in two distinct groups and the comparison has
two one-sided entries. -/
theorem c4_counterexample :
    (runLocalComparison [[("id", Value.num 1), ("v", Value.str "x")]]
        [[("id", Value.str "1"), ("v", Value.str "x")]] "id" "id").comparison.map
      ComparisonEntry.status
      = [ComparisonStatus.inSheet1Only, ComparisonStatus.inSheet2Only] := by decide

/-- C4 amended: the comparator groups rows by the raw key value under
`Map` (SameValueZero) equality, not by string representation: the group
retrieved for key `k` is exactly the rows whose raw key value equals `k`,
so `1` and `"1"` are distinct keys and a null key and an absent key are
distinct keys. -/
theorem c4_grouping_raw (data : List Row) (keyColumn : String) (k : Value) :
    lookupGroup (groupRowsByKey data keyColumn) k
      = data.filter (fun r => decide (rowGet r keyColumn = k)) :=
  lookupGroup_groupRowsByKey data keyColumn k

/-- C5 counterexample: the claim fails in two ways. (1) Naming: it calls
the merged column `"name (Merged)"` (column name, space, `(Merged)`); the
code writes `` `${col}_(Merged)` ``, so the merged row gains
`"name_(Merged)"` and no `"name (Merged)"` column exists. (2) Retention:
with left row `{id, b, b_(Merged)}` and both `"b"` and `"b_(Merged)"`
among the columns to copy, take `X = "b_(Merged)"` (present on the left
row and selected): the claim says the merged row retains the original
value of `X`; but processing `"b"` executes
`newRow["b_(Merged)"] = rightRow["b"]`, clobbering the existing value
`"v2"` with `"w0"`, so retention fails whenever another selected column
`c` satisfies `c ++ "_(Merged)" = X`. -/
theorem c5_counterexample :
    (runMerge [[("id", Value.num 1), ("name", Value.str "A")]]
        [[("id", Value.num 1), ("name", Value.str "B2")]] "id" "id" ["name"]
      = [[("id", Value.num 1), ("name", Value.str "A"),
          ("name_(Merged)", Value.str "B2")]] ∧
    rowHas [("id", Value.num 1), ("name", Value.str "A"),
        ("name_(Merged)", Value.str "B2")] "name (Merged)" = false) ∧
    (runMerge [[("id", Value.num 1), ("b", Value.str "v1"),
          ("b_(Merged)", Value.str "v2")]]
        [[("id", Value.num 1), ("b", Value.str "w0"),
          ("b_(Merged)", Value.str "w1")]] "id" "id" ["b", "b_(Merged)"]
      = [[("id", Value.num 1), ("b", Value.str "v1"),
          ("b_(Merged)", Value.str "w0"),
          ("b_(Merged)_(Merged)", Value.str "w1")]] ∧
    ¬ rowGet [("id", Value.num 1), ("b", Value.str "v1"),
          ("b_(Merged)", Value.str "w0"),
          ("b_(Merged)_(Merged)", Value.str "w1")]
        "b_(Merged)" = Value.str "v2") := by decide

/-- C5 amended: if a left row already has column `X`, `X` is among the
columns to copy, the row matches a right row, and no other selected
column `c` satisfies `c ++ "_(Merged)" = X` (without this proviso
retention fails — the counterexample's second part), then the merged row
keeps the original value of `X` unchanged and gains a new column named
exactly `X ++ "_(Merged)"` (underscore, not space) holding the right
row's value of `X`. -/
theorem c5_merge_nonOverwrite (L R : List Row) (lk rk : String) (cols : List String)
    (X : String) (hXmem : X ∈ cols)
    (hM : ∀ c ∈ cols, c ++ "_(Merged)" ≠ X)
    (i : Nat) (li rr : Row) (hli : L[i]? = some li)
    (hhas : rowHas li X = true)
    (hmatch : mapGet (buildRightDataMap R rk) (rowGet li lk) = some rr) :
    (runMerge L R lk rk cols)[i]? = some (mergeRow cols rr li) ∧
    rowGet (mergeRow cols rr li) X = rowGet li X ∧
    rowGet (mergeRow cols rr li) (X ++ "_(Merged)") = rowGet rr X ∧
    rowHas (mergeRow cols rr li) (X ++ "_(Merged)") = true := by
  have hout : (runMerge L R lk rk cols)[i]? = some (mergeRow cols rr li) := by
    unfold runMerge
    rw [List.getElem?_map, hli]
    simp only [Option.map_some']
    rw [hmatch]
  obtain ⟨hA, hB, hC⟩ := mergeRow_nonOverwrite cols rr li X hXmem hM hhas
  exact ⟨hout, hA, hB, hC⟩

/-- C5 witness: the amended claim at the concrete one-row merge of the
counterexample. -/
theorem c5_merge_nonOverwrite_witness :
    (runMerge [[("id", Value.num 1), ("name", Value.str "A")]]
        [[("id", Value.num 1), ("name", Value.str "B2")]] "id" "id" ["name"])[0]?
      = some (mergeRow ["name"] [("id", Value.num 1), ("name", Value.str "B2")]
          [("id", Value.num 1), ("name", Value.str "A")]) ∧
    rowGet (mergeRow ["name"] [("id", Value.num 1), ("name", Value.str "B2")]
        [("id", Value.num 1), ("name", Value.str "A")]) "name"
      = rowGet [("id", Value.num 1), ("name", Value.str "A")] "name" ∧
    rowGet (mergeRow ["name"] [("id", Value.num 1), ("name", Value.str "B2")]
        [("id", Value.num 1), ("name", Value.str "A")]) ("name" ++ "_(Merged)")
      = rowGet [("id", Value.num 1), ("name", Value.str "B2")] "name" ∧
    rowHas (mergeRow ["name"] [("id", Value.num 1), ("name", Value.str "B2")]
        [("id", Value.num 1), ("name", Value.str "A")]) ("name" ++ "_(Merged)") = true :=
  c5_merge_nonOverwrite [[("id", Value.num 1), ("name", Value.str "A")]]
    [[("id", Value.num 1), ("name", Value.str "B2")]] "id" "id" ["name"] "name"
    (by decide) (by decide) 0 [("id", Value.num 1), ("name", Value.str "A")]
    [("id", Value.num 1), ("name", Value.str "B2")] rfl (by decide) (by decide)

/-- C6: within each duplicate-key group, entry `i` pairs row `i` of the
left group with row `i` of the right group (positional pairing), and the
concrete duplicate-key example yields exactly the claimed two entries:
first a Changed pair (v=1 vs v=9), then a Sheet-1-only entry carrying
`{id:9,v:2}` with a null right row. -/
theorem c6_positional_pairing :
    (∀ (cols : List String) (k : Value) (l1 l2 : List Row) (i : Nat)
        (e : ComparisonEntry),
      (entriesForKey cols k l1 l2)[i]? = some e →
        e.data1 = l1[i]? ∧ e.data2 = l2[i]?) ∧
    (runLocalComparison
        [[("id", Value.num 9), ("v", Value.num 1)],
         [("id", Value.num 9), ("v", Value.num 2)]]
        [[("id", Value.num 9), ("v", Value.num 9)]] "id" "id").comparison
      = [{ status := ComparisonStatus.changed, key := Value.num 9,
           data1 := some [("id", Value.num 9), ("v", Value.num 1)],
           data2 := some [("id", Value.num 9), ("v", Value.num 9)] },
         { status := ComparisonStatus.inSheet1Only, key := Value.num 9,
           data1 := some [("id", Value.num 9), ("v", Value.num 2)],
           data2 := none }] := by
  refine ⟨fun cols k l1 l2 i e he => getElem?_entriesForKey cols k l1 l2 i e he, ?_⟩
  decide

/-- C6 witness: the positional-pairing component instantiated at the
second entry of the concrete duplicate-key group. -/
theorem c6_positional_pairing_witness :
    (ComparisonEntry.mk ComparisonStatus.inSheet1Only (Value.num 9)
        (some [("id", Value.num 9), ("v", Value.num 2)]) none).data1
      = [[("id", Value.num 9), ("v", Value.num 1)],
         [("id", Value.num 9), ("v", Value.num 2)]][1]? ∧
    (ComparisonEntry.mk ComparisonStatus.inSheet1Only (Value.num 9)
        (some [("id", Value.num 9), ("v", Value.num 2)]) none).data2
      = [[("id", Value.num 9), ("v", Value.num 9)]][1]? :=
  c6_positional_pairing.1 ["id", "v"] (Value.num 9)
    [[("id", Value.num 9), ("v", Value.num 1)],
     [("id", Value.num 9), ("v", Value.num 2)]]
    [[("id", Value.num 9), ("v", Value.num 9)]] 1
    (ComparisonEntry.mk ComparisonStatus.inSheet1Only (Value.num 9)
      (some [("id", Value.num 9), ("v", Value.num 2)]) none) (by decide)

/-- C7: the merge output has exactly as many rows as the left table, row
`i` of the output is derived from row `i` of the left table (it keeps
every column the left row has), and hence no row derived solely from an
unmatched right row appears (left outer join). -/
theorem c7_merge_row_conservation (L R : List Row) (lk rk : String)
    (cols : List String) :
    (runMerge L R lk rk cols).length = L.length ∧
    (∀ (i : Nat) (li oi : Row), L[i]? = some li →
      (runMerge L R lk rk cols)[i]? = some oi →
      ∀ c, rowHas li c = true → rowHas oi c = true) := by
  constructor
  · unfold runMerge
    simp
  · intro i li oi hli hoi c hc
    unfold runMerge at hoi
    rw [List.getElem?_map, hli] at hoi
    simp only [Option.map_some', Option.some.injEq] at hoi
    subst hoi
    cases hm : mapGet (buildRightDataMap R rk) (rowGet li lk) with
    | none => simpa using hc
    | some rr => exact rowHas_foldl_mergeStep rr cols li c hc

/-- C7 witness: a one-row left table against an empty right table keeps
its single row and its column. -/
theorem c7_merge_row_conservation_witness :
    (runMerge [[("a", Value.num 1)]] [] "a" "a" ["b"]).length = 1 ∧
    rowHas [("a", Value.num 1)] "a" = true :=
  ⟨(c7_merge_row_conservation [[("a", Value.num 1)]] [] "a" "a" ["b"]).1,
   (c7_merge_row_conservation [[("a", Value.num 1)]] [] "a" "a" ["b"]).2
     0 [("a", Value.num 1)] [("a", Value.num 1)] rfl (by decide) "a" (by decide)⟩

/-- C8: the right-side lookup maps each non-null/undefined key to the LAST
right row carrying that key (last-write-wins), and that surviving row is
the one merged onto every left row whose key equals it. -/
theorem c8_last_write_wins (R : List Row) (rk : String) (k : Value)
    (hk1 : k ≠ Value.null) (hk2 : k ≠ Value.undef) :
    mapGet (buildRightDataMap R rk) k
      = (R.filter (fun r => decide (rowGet r rk = k))).getLast? ∧
    (∀ (L : List Row) (lk : String) (cols : List String) (i : Nat) (li rr : Row),
      L[i]? = some li → rowGet li lk = k →
      (R.filter (fun r => decide (rowGet r rk = k))).getLast? = some rr →
      (runMerge L R lk rk cols)[i]? = some (mergeRow cols rr li)) := by
  refine ⟨mapGet_buildRightDataMap R rk k hk1 hk2, ?_⟩
  intro L lk cols i li rr hli hkey hlast
  unfold runMerge
  rw [List.getElem?_map, hli]
  simp only [Option.map_some']
  rw [hkey, mapGet_buildRightDataMap R rk k hk1 hk2, hlast]

/-- C8 witness: two right rows share key 1; the lookup returns the second
one and it is the row merged onto the matching left row. -/
theorem c8_last_write_wins_witness :
    mapGet (buildRightDataMap
        [[("id", Value.num 1), ("v", Value.str "a")],
         [("id", Value.num 1), ("v", Value.str "b")]] "id") (Value.num 1)
      = ([[("id", Value.num 1), ("v", Value.str "a")],
          [("id", Value.num 1), ("v", Value.str "b")]].filter
          (fun r => decide (rowGet r "id" = Value.num 1))).getLast? ∧
    (∀ (L : List Row) (lk : String) (cols : List String) (i : Nat) (li rr : Row),
      L[i]? = some li → rowGet li lk = Value.num 1 →
      ([[("id", Value.num 1), ("v", Value.str "a")],
        [("id", Value.num 1), ("v", Value.str "b")]].filter
          (fun r => decide (rowGet r "id" = Value.num 1))).getLast? = some rr →
      (runMerge L [[("id", Value.num 1), ("v", Value.str "a")],
          [("id", Value.num 1), ("v", Value.str "b")]] lk "id" cols)[i]?
        = some (mergeRow cols rr li)) :=
  c8_last_write_wins
    [[("id", Value.num 1), ("v", Value.str "a")],
     [("id", Value.num 1), ("v", Value.str "b")]] "id" (Value.num 1)
    (by decide) (by decide)

theorem groupRowsByKey_all_undef (d : List Row) (c : String)
    (h : ∀ r ∈ d, rowGet r c = Value.undef) :
    groupRowsByKey d c = if d = [] then [] else [(Value.undef, d)] := by
  have hgen : ∀ (t : List Row) (acc : List Row), (∀ r ∈ t, rowGet r c = Value.undef) →
      t.foldl (fun m row => insertGroup m (rowGet row c) row) [(Value.undef, acc)]
        = [(Value.undef, acc ++ t)] := by
    intro t
    induction t with
    | nil => intro acc _; simp
    | cons r2 t2 ih =>
      intro acc ht
      rw [List.foldl_cons, ht r2 (by simp)]
      simp only [insertGroup, eq_self_iff_true, if_true]
      rw [ih (acc ++ [r2]) (fun r hr => ht r (by simp [hr]))]
      simp
  cases d with
  | nil => rfl
  | cons r t =>
    rw [if_neg (by simp)]
    unfold groupRowsByKey
    rw [List.foldl_cons, h r (by simp)]
    have h2 := hgen t [r] (fun r2 hr2 => h r2 (by simp [hr2]))
    simpa [insertGroup] using h2

/-- C9: when the configured key column is absent from every row of table
1, the comparison still returns a defined result: all of table 1 collapses
into the single `undefined`-key group, and every entry carrying a table-1
row has the `undefined` key. -/
theorem c9_missing_key_degenerate (data1 data2 : List Row) (key1 key2 : String)
    (h : ∀ r ∈ data1, rowHas r key1 = false) :
    groupRowsByKey data1 key1 = (if data1 = [] then [] else [(Value.undef, data1)]) ∧
    (∀ e ∈ (runLocalComparison data1 data2 key1 key2).comparison,
      e.data1.isSome = true → e.key = Value.undef) := by
  have hundef : ∀ r ∈ data1, rowGet r key1 = Value.undef :=
    fun r hr => rowGet_eq_undef r key1 (h r hr)
  refine ⟨groupRowsByKey_all_undef data1 key1 hundef, ?_⟩
  intro e he hsome
  have hmain : (runLocalComparison data1 data2 key1 key2).comparison
      = ((jsSetOfList ((groupRowsByKey data1 key1).map Prod.fst
            ++ (groupRowsByKey data2 key2).map Prod.fst)).map
          (fun k => entriesForKey
              (jsSetOfList (sheetColumns data1 ++ sheetColumns data2)) k
              (lookupGroup (groupRowsByKey data1 key1) k)
              (lookupGroup (groupRowsByKey data2 key2) k))).flatten := rfl
  rw [hmain, List.mem_flatten] at he
  obtain ⟨l, hl, hel⟩ := he
  rw [List.mem_map] at hl
  obtain ⟨k, _, rfl⟩ := hl
  obtain ⟨r, hr⟩ := Option.isSome_iff_exists.1 hsome
  have hrin := data1_of_mem_entriesForKey _ _ _ _ _ hel r hr
  rw [lookupGroup_groupRowsByKey, List.mem_filter] at hrin
  have hkey : rowGet r key1 = k := by simpa using hrin.2
  have hku : k = Value.undef := by rw [← hkey]; exact hundef r hrin.1
  rw [key_of_mem_entriesForKey _ _ _ _ _ hel, hku]

/-- C9 witness: a table whose rows lack the key column `id` collapses
into the single `undefined`-key group and its entry carries the
`undefined` key. -/
theorem c9_missing_key_degenerate_witness :
    groupRowsByKey [[("x", Value.num 1)]] "id"
      = (if ([[("x", Value.num 1)]] : List Row) = [] then []
         else [(Value.undef, [[("x", Value.num 1)]])]) ∧
    (∀ e ∈ (runLocalComparison [[("x", Value.num 1)]] [] "id" "id").comparison,
      e.data1.isSome = true → e.key = Value.undef) :=
  c9_missing_key_degenerate [[("x", Value.num 1)]] [] "id" "id" (by decide)

/-- C10: right rows with a null/undefined key are excluded from the merge
lookup entirely, and a left row whose key is null/undefined is returned as
an unmodified copy with no columns added, even when the right table holds
null/undefined-key rows. -/
theorem c10_nullish_key_merge (L R : List Row) (lk rk : String)
    (cols : List String) :
    (mapGet (buildRightDataMap R rk) Value.null = none ∧
     mapGet (buildRightDataMap R rk) Value.undef = none) ∧
    (∀ (i : Nat) (li : Row), L[i]? = some li →
      (rowGet li lk = Value.null ∨ rowGet li lk = Value.undef) →
      (runMerge L R lk rk cols)[i]? = some li) := by
  refine ⟨⟨mapGet_buildRightDataMap_nullish R rk _ (Or.inl rfl),
    mapGet_buildRightDataMap_nullish R rk _ (Or.inr rfl)⟩, ?_⟩
  intro i li hli hk
  unfold runMerge
  rw [List.getElem?_map, hli]
  simp only [Option.map_some']
  rw [mapGet_buildRightDataMap_nullish R rk _ hk]

/-- C10 witness: a null-key left row passes through unchanged even though
the right table contains a null-key row with extra data. -/
theorem c10_nullish_key_merge_witness :
    (mapGet (buildRightDataMap [[("a", Value.null), ("b", Value.num 1)]] "a")
        Value.null = none ∧
     mapGet (buildRightDataMap [[("a", Value.null), ("b", Value.num 1)]] "a")
        Value.undef = none) ∧
    (runMerge [[("a", Value.null)]] [[("a", Value.null), ("b", Value.num 1)]]
        "a" "a" ["b"])[0]? = some [("a", Value.null)] :=
  ⟨(c10_nullish_key_merge [[("a", Value.null)]]
      [[("a", Value.null), ("b", Value.num 1)]] "a" "a" ["b"]).1,
   (c10_nullish_key_merge [[("a", Value.null)]]
      [[("a", Value.null), ("b", Value.num 1)]] "a" "a" ["b"]).2
     0 [("a", Value.null)] rfl (Or.inl (by decide))⟩
